import Mathlib

/-!
Verification of `tools/rpm-packaging-status.py` from openstack/rpm-packaging-tools.

The development shallowly embeds the version-extraction and status-classification
logic of the script.  Machine-level details that live in external libraries
(the `packaging` version parser, the `re` regex engine, the `yaml` loader) are
modelled at the boundary the script observes: a version is the list of its
numeric release segments, a template line is represented by the results of the
two regex searches the script performs on it, and a constraints line is
represented by the parsed requirement (name plus specifier list) the script
obtains from it.
-/

set_option autoImplicit false

/-- Comparison result of the numeric-segment comparison used for PEP440
release tuples: plain lexicographic comparison of two `List Nat`. -/
def listCmp : List Nat → List Nat → Ordering
  | [], [] => .eq
  | [], _ :: _ => .lt
  | _ :: _, [] => .gt
  | x :: xs, y :: ys =>
    if x < y then .lt else if y < x then .gt else listCmp xs ys

/-- Modelled from the external `packaging.version` library (PEP440): the
comparison key of a release-segment list drops trailing zero segments, exactly
as `packaging`'s `_cmpkey` does for the release tuple. -/
def vkey (v : List Nat) : List Nat :=
  (v.reverse.dropWhile (fun x => x == 0)).reverse

/-- Modelled from the external `packaging.version` library (PEP440): total
order on parsed versions, restricted to numeric release segments (the only
fragment the script's inputs use).  `a` and `b` compare by their keys. -/
def vcmp (a b : List Nat) : Ordering :=
  listCmp (vkey a) (vkey b)

/-- Split a character list at the dots, mirroring the dotted-segment shape of
a version string. -/
def splitDots : List Char → List (List Char)
  | [] => [[]]
  | c :: cs =>
    if c = '.' then [] :: splitDots cs
    else
      match splitDots cs with
      | [] => [[c]]
      | seg :: segs => (c :: seg) :: segs

/-- Numeric value of a digit segment, `none` when the segment is empty or has
a non-digit character (the behaviour of `String.toNat?` / Python `int`). -/
def segToNat (seg : List Char) : Option Nat :=
  if !seg.isEmpty && seg.all Char.isDigit then
    some (seg.foldl (fun n c => n * 10 + (Char.toNat c - 48)) 0)
  else
    none

/-- Modelled from the external `packaging.version` library: `version.parse`
restricted to dotted numeric release segments, giving the list of numeric
segments of the string.  A non-numeric segment is outside the modelled
fragment and is mapped to `0`; every version string the claims touch is
purely numeric. -/
def parseVersion (s : String) : List Nat :=
  (splitDots s.toList).map (fun seg => (segToNat seg).getD 0)

/-- Python `dict` assignment `d[k] = v`: replace the value of an existing key
in place, otherwise append the new key at the end. -/
def dictSet {α : Type} : List (String × α) → String → α → List (String × α)
  | [], k, v => [(k, v)]
  | (k0, v0) :: rest, k, v =>
    if k0 = k then (k, v) :: rest else (k0, v0) :: dictSet rest k v

/-- Python `dict` lookup `d[k]` / `k in d`: find the value stored for a key. -/
def lookupDict {α : Type} : List (String × α) → String → Option α
  | [], _ => none
  | (k0, v0) :: rest, k => if k0 = k then some v0 else lookupDict rest k

example : vcmp (parseVersion "1.0") (parseVersion "1") = .eq := by decide
example : vcmp (parseVersion "1.4.1") (parseVersion "1.10") = .lt := by decide
example : vcmp (parseVersion "2.0.1") (parseVersion "2.0") = .gt := by decide
example : vkey (parseVersion "0") = [] := by decide

/-- Output channel of a Python text write: `print(...)` writes to standard
output, `print(..., file=sys.stderr)` would write to standard error. -/
inductive Channel where
  | stdout
  | stderr
deriving DecidableEq

/-- Value stored in the `rpm_packaging_pkg` field of a record: either the
string `'version unset'` or a parsed version, exactly the two shapes
`find_rpm_packaging_pkg_version` can return. -/
inductive PkgVersion where
  | unset
  | ver (v : List Nat)
deriving DecidableEq

/-- One line of a `.spec.j2` packaging template, represented by the results
of the two `re.search` calls the script performs on the raw text:
`upstreamMatch` is the `version` group of the declared-upstream-version
pattern (the line `\x7b% set upstream_version = ... %\x7d`), `versionMatch`
is the `version` group of the `^Version:` field pattern; `none` means the
pattern does not match the line. -/
structure SpecLine where
  upstreamMatch : Option String
  versionMatch : Option String
deriving DecidableEq

/-- Loop body of `find_rpm_packaging_pkg_version` over the lines of an
existing template file: scan lines in order; a line matching the
declared-upstream-version pattern returns its parsed version; otherwise a
line matching the `Version:` pattern returns `'version unset'` when its
value is the placeholder `\x7b\x7b py2rpmversion() \x7d\x7d` and its parsed
version otherwise; when no line matches, `print` a diagnostic (to standard
output) and return `version.parse('0')`. -/
def scanSpecLines (pkg_project_spec : String) :
    List SpecLine → PkgVersion × Option (Channel × String)
  | [] =>
    (.ver (parseVersion "0"),
     some (.stdout, "ERROR: no version in " ++ pkg_project_spec ++ " found"))
  | l :: ls =>
    match l.upstreamMatch with
    | some v => (.ver (parseVersion v), none)
    | none =>
      match l.versionMatch with
      | some v =>
        if v = "\x7b\x7b py2rpmversion() \x7d\x7d" then (.unset, none)
        else (.ver (parseVersion v), none)
      | none => scanSpecLines pkg_project_spec ls

/-- Embedding of `find_rpm_packaging_pkg_version(pkg_project_spec)`: the file
is `none` when `os.path.exists` is false (return `version.parse('0')` with no
output), otherwise the list of its lines.  The second component of the result
records the diagnostic the function prints, with its channel. -/
def find_rpm_packaging_pkg_version (pkg_project_spec : String) :
    Option (List SpecLine) → PkgVersion × Option (Channel × String)
  | none => (.ver (parseVersion "0"), none)
  | some lines => scanSpecLines pkg_project_spec lines

/-- One element of a parsed requirement's specifier set: an operator and a
version string, as in `packaging.specifiers.Specifier`. -/
structure Specifier where
  op : String
  version : String
deriving DecidableEq

/-- One line of `upper-constraints.txt`, represented by the parsed
requirement the script obtains from it: `Requirement(l.split(';')[0])`, so
the environment marker after the first semicolon is already discarded.
`specifiers` lists the requirement's specifier set in iteration order. -/
structure UCLine where
  name : String
  specifiers : List Specifier
deriving DecidableEq

/-- Embedding of `read_upper_constraints(filename)`: for each line, store the
version of the first specifier in iteration order under the requirement name
(the loop breaks after the first specifier), in a Python dict. -/
def read_upper_constraints (lines : List UCLine) : List (String × String) :=
  lines.foldl
    (fun uc l =>
      match l.specifiers with
      | [] => uc
      | s :: _ => dictSet uc l.name s.version)
    []

/-- Embedding of the namedtuple `V` holding one project's data: parsed
release version, upper-constraints entry (the string `"-"` when the project
has none), packaging version, open review numbers, and the version published
by the build service. -/
structure V where
  release : List Nat
  upper_constraints : String
  rpm_packaging_pkg : PkgVersion
  reviews : List Nat
  obs_published : List Nat
deriving DecidableEq

/-- Label computed by the constraint sub-case of the equal-versions branch of
`_pretty_table`: `'needs downgrade (u-c)'` when an upper-constraints entry is
present and the release version exceeds it.  In the source this assignment to
`comment` is immediately followed by the unconditional `comment = 'ok'` of the
same branch, so its value is never observable. -/
def ucDowngradeLabel (x : V) : Option String :=
  if x.upper_constraints ≠ "-" ∧
      vcmp x.release (parseVersion x.upper_constraints) = .gt then
    some "needs downgrade (u-c)"
  else none

/-- Embedding of the `comment` computation in the row loop of
`_pretty_table`: the `if/elif/.../else` chain classifying one record. -/
def statusComment (x : V) : String :=
  match x.rpm_packaging_pkg with
  | .unset => "ok"
  | .ver v =>
    if vcmp v (parseVersion "0") = .eq then "unpackaged"
    else if vcmp v x.release = .lt then "needs upgrade"
    else if vcmp v x.release = .eq then
      let _dead := ucDowngradeLabel x
      "ok"
    else if vcmp v x.release = .gt then "needs downgrade"
    else ""

/-- One entry of the `projects` list inside a release entry; `tarball_base`
models `projects[i].get('tarball-base', ...)`. -/
structure ReleaseProject where
  tarball_base : Option String
deriving DecidableEq

/-- One entry of the `releases` list of a deliverable yaml file: a version
string and the list of projects. -/
structure ReleaseEntry where
  version : String
  projects : List ReleaseProject
deriving DecidableEq

/-- Embedding of `find_highest_release_version(releases)`: Python
`max(releases, key=lambda x: version.parse(str(x['version'])))`, which keeps
the first entry and replaces it whenever a later entry's key compares
strictly greater.  `none` models the `ValueError` `max` raises on an empty
list. -/
def find_highest_release_version : List ReleaseEntry → Option ReleaseEntry
  | [] => none
  | x :: xs =>
    some (xs.foldl
      (fun best y =>
        if vcmp (parseVersion y.version) (parseVersion best.version) = .gt
        then y else best)
      x)

/-- One deliverable yaml file of the releases repository: the project name
derived from the file basename, and the `releases` list (`none` when the
file has no `releases` key). -/
structure YamlFile where
  project_name : String
  releases : Option (List ReleaseEntry)

/-- External data `main` consumes besides the yaml files: the parsed
upper-constraints dict, the template file found at each path (`none` when
`os.path.exists` is false), the open-reviews dict from gerrit, and, for each
project name, the result of `find_openbuildservice_pkg_version` on the
published xml. -/
structure Env where
  upper_constraints : List (String × String)
  spec_lines : String → Option (List SpecLine)
  open_reviews : List (String × List Nat)
  obs : String → List Nat

/-- Loop body of `main` over one yaml file, threading the `projects` dict;
`none` models an uncaught exception (empty `releases` list, or a release
entry with an empty `projects` list).  A file is skipped when the include
list is non-empty and does not hold the project name, or when it has no
`releases` key. -/
def buildStep (env : Env) (include_projects : List String) :
    Option (List (String × V)) → YamlFile → Option (List (String × V))
  | none, _ => none
  | some projects, yf =>
    if include_projects ≠ [] ∧ yf.project_name ∉ include_projects then
      some projects
    else
      match yf.releases with
      | none => some projects
      | some rels =>
        match find_highest_release_version rels with
        | none => none
        | some v_release =>
          match v_release.projects.head? with
          | none => none
          | some p0 =>
            let project_name_pkg := p0.tarball_base.getD yf.project_name
            let v_upper_constraints :=
              (lookupDict env.upper_constraints yf.project_name).getD "-"
            let path :=
              "openstack/" ++ project_name_pkg ++ "/" ++
                project_name_pkg ++ ".spec.j2"
            let v_rpm :=
              (find_rpm_packaging_pkg_version path (env.spec_lines path)).1
            let project_reviews :=
              (lookupDict env.open_reviews yf.project_name).getD []
            some (dictSet projects yf.project_name
              ⟨parseVersion v_release.version, v_upper_constraints, v_rpm,
               project_reviews, env.obs yf.project_name⟩)

/-- Embedding of the record-building loop of `main`: fold `buildStep` over
all deliverable yaml files, starting from the empty `projects` dict. -/
def buildProjects (env : Env) (include_projects : List String)
    (files : List YamlFile) : Option (List (String × V)) :=
  files.foldl (buildStep env include_projects) (some [])

/-- Stated from the spec's amended wording for the constraints reader: the
recorded constraint for a name is the version of the first specifier of the
last constraints line carrying that name with a non-empty specifier list,
regardless of operators. -/
def lastFirstSpecifier (lines : List UCLine) (name : String) : Option String :=
  lines.foldl
    (fun acc l =>
      if l.name = name ∧ l.specifiers ≠ [] then
        (l.specifiers.head?).map Specifier.version
      else acc)
    none

theorem listCmp_self (a : List Nat) : listCmp a a = .eq := by
  induction a with
  | nil => rfl
  | cons x xs ih => simp [listCmp, ih]

theorem listCmp_eq_iff (a b : List Nat) : listCmp a b = .eq ↔ a = b := by
  induction a generalizing b with
  | nil => cases b <;> simp [listCmp]
  | cons x xs ih =>
    cases b with
    | nil => simp [listCmp]
    | cons y ys =>
      rcases Nat.lt_trichotomy x y with h | h | h
      · simp only [listCmp, if_pos h, List.cons.injEq]
        constructor
        · intro he
          exact Ordering.noConfusion he
        · rintro ⟨he, -⟩
          omega
      · subst h
        simp [listCmp, ih]
      · have h2 : ¬ x < y := Nat.lt_asymm h
        simp only [listCmp, if_neg h2, if_pos h, List.cons.injEq]
        constructor
        · intro he
          exact Ordering.noConfusion he
        · rintro ⟨he, -⟩
          omega

theorem listCmp_lt_iff_gt (a b : List Nat) :
    listCmp a b = .lt ↔ listCmp b a = .gt := by
  induction a generalizing b with
  | nil => cases b <;> simp [listCmp]
  | cons x xs ih =>
    cases b with
    | nil => simp [listCmp]
    | cons y ys =>
      rcases Nat.lt_trichotomy x y with h | h | h
      · simp [listCmp, h, Nat.lt_asymm h]
      · subst h
        simp [listCmp, ih]
      · simp [listCmp, h, Nat.lt_asymm h]

theorem listCmp_gt_trans (a : List Nat) : ∀ (b c : List Nat),
    listCmp a b = .gt → listCmp b c = .gt → listCmp a c = .gt := by
  induction a with
  | nil =>
    intro b c h1 h2
    cases b <;> simp [listCmp] at h1
  | cons x xs ih =>
    intro b c h1 h2
    cases b with
    | nil => cases c <;> simp [listCmp] at h2
    | cons y ys =>
      cases c with
      | nil => simp [listCmp]
      | cons z zs =>
        simp only [listCmp] at h1 h2 ⊢
        by_cases hxy : x < y
        · rw [if_pos hxy] at h1
          exact absurd h1 (by decide)
        · by_cases hyz : y < z
          · rw [if_pos hyz] at h2
            exact absurd h2 (by decide)
          · rw [if_neg hxy] at h1
            rw [if_neg hyz] at h2
            by_cases hyx : y < x
            · by_cases hzy : z < y
              · rw [if_neg (show ¬ x < z by omega), if_pos (show z < x by omega)]
              · rw [if_neg (show ¬ x < z by omega), if_pos (show z < x by omega)]
            · rw [if_neg hyx] at h1
              by_cases hzy : z < y
              · rw [if_neg (show ¬ x < z by omega), if_pos (show z < x by omega)]
              · rw [if_neg hzy] at h2
                rw [if_neg (show ¬ x < z by omega),
                  if_neg (show ¬ z < x by omega)]
                exact ih ys zs h1 h2

theorem listCmp_nil_not_gt (b : List Nat) : listCmp [] b ≠ .gt := by
  cases b <;> simp [listCmp]

theorem vcmp_self (a : List Nat) : vcmp a a = .eq :=
  listCmp_self (vkey a)

theorem vcmp_eq_iff (a b : List Nat) : vcmp a b = .eq ↔ vkey a = vkey b :=
  listCmp_eq_iff (vkey a) (vkey b)

theorem vcmp_lt_iff_gt (a b : List Nat) :
    vcmp a b = .lt ↔ vcmp b a = .gt :=
  listCmp_lt_iff_gt (vkey a) (vkey b)

theorem vcmp_gt_trans {a b c : List Nat} (h1 : vcmp a b = .gt)
    (h2 : vcmp b c = .gt) : vcmp a c = .gt :=
  listCmp_gt_trans (vkey a) (vkey b) (vkey c) h1 h2

theorem vcmp_notGt_trans {a b c : List Nat} (h1 : vcmp a b ≠ .gt)
    (h2 : vcmp b c ≠ .gt) : vcmp a c ≠ .gt := by
  intro hac
  cases h : vcmp a b with
  | lt =>
    have hba : vcmp b a = .gt := (vcmp_lt_iff_gt a b).mp h
    exact h2 (vcmp_gt_trans hba hac)
  | eq =>
    have hk : vkey a = vkey b := (vcmp_eq_iff a b).mp h
    apply h2
    unfold vcmp at hac ⊢
    rw [← hk]
    exact hac
  | gt => exact h1 h

theorem lookupDict_dictSet {α : Type} (d : List (String × α)) (k k2 : String)
    (v : α) :
    lookupDict (dictSet d k v) k2 =
      if k = k2 then some v else lookupDict d k2 := by
  induction d with
  | nil => simp [dictSet, lookupDict]
  | cons p rest ih =>
    obtain ⟨k0, v0⟩ := p
    by_cases h : k0 = k
    · subst h
      by_cases h2 : k0 = k2 <;> simp [dictSet, lookupDict, h2]
    · by_cases h2 : k0 = k2
      · subst h2
        simp [dictSet, lookupDict, h, ih,
          show ¬ k = k0 from fun he => h he.symm]
      · simp [dictSet, lookupDict, h, h2, ih]

theorem mem_keys_dictSet {α : Type} (d : List (String × α)) (k k2 : String)
    (v : α) :
    k2 ∈ (dictSet d k v).map Prod.fst ↔ k2 = k ∨ k2 ∈ d.map Prod.fst := by
  induction d with
  | nil => simp [dictSet]
  | cons p rest ih =>
    obtain ⟨k0, v0⟩ := p
    by_cases h : k0 = k
    · subst h
      rw [show dictSet ((k0, v0) :: rest) k0 v = (k0, v) :: rest from by
        simp [dictSet]]
      simp only [List.map_cons, List.mem_cons]
      tauto
    · rw [show dictSet ((k0, v0) :: rest) k v = (k0, v0) :: dictSet rest k v
        from by simp [dictSet, h]]
      simp only [List.map_cons, List.mem_cons, ih]
      tauto

theorem nodup_keys_dictSet {α : Type} (d : List (String × α)) (k : String)
    (v : α) (h : (d.map Prod.fst).Nodup) :
    ((dictSet d k v).map Prod.fst).Nodup := by
  induction d with
  | nil => simp [dictSet]
  | cons p rest ih =>
    obtain ⟨k0, v0⟩ := p
    simp only [List.map_cons, List.nodup_cons] at h
    obtain ⟨hnot, hrest⟩ := h
    by_cases he : k0 = k
    · subst he
      rw [show dictSet ((k0, v0) :: rest) k0 v = (k0, v) :: rest from by
        simp [dictSet]]
      simp only [List.map_cons, List.nodup_cons]
      exact ⟨hnot, hrest⟩
    · rw [show dictSet ((k0, v0) :: rest) k v = (k0, v0) :: dictSet rest k v
        from by simp [dictSet, he]]
      simp only [List.map_cons, List.nodup_cons]
      refine ⟨?_, ih hrest⟩
      intro hmem
      rcases (mem_keys_dictSet rest k k0 v).mp hmem with h1 | h1
      · exact he h1
      · exact hnot h1

/-- C1: in the status classifier, when the packaging version equals the
upstream release version and an upper-constraints entry is present with the
release version exceeding it, the label `needs downgrade (u-c)` is computed
(`ucDowngradeLabel`) but the equal-versions branch unconditionally assigns
`ok` right after it, so the classifier returns `ok` for every such record. -/
theorem claim_C1_dead_uc_branch (x : V) (v : List Nat)
    (hpkg : x.rpm_packaging_pkg = .ver v)
    (heq : vcmp v x.release = .eq)
    (huc : x.upper_constraints ≠ "-")
    (hgt : vcmp x.release (parseVersion x.upper_constraints) = .gt) :
    ucDowngradeLabel x = some "needs downgrade (u-c)" ∧
      statusComment x = "ok" := by
  have hz : ¬ vcmp v (parseVersion "0") = .eq := by
    intro h0
    have hk : vkey v = vkey (parseVersion "0") := (vcmp_eq_iff _ _).mp h0
    have hk2 : vkey v = vkey x.release := (vcmp_eq_iff _ _).mp heq
    have hk3 : vkey x.release = vkey (parseVersion "0") := by rw [← hk2, hk]
    have hkey0 : vkey (parseVersion "0") = [] := by decide
    unfold vcmp at hgt
    rw [hk3, hkey0] at hgt
    exact listCmp_nil_not_gt _ hgt
  constructor
  · unfold ucDowngradeLabel
    rw [if_pos ⟨huc, hgt⟩]
  · simp only [statusComment, hpkg]
    rw [if_neg hz, if_neg (show ¬ vcmp v x.release = .lt by rw [heq]; decide),
      if_pos heq]

theorem claim_C1_dead_uc_branch_witness :
    (V.mk [1] "0.9" (.ver [1]) [] []).rpm_packaging_pkg = .ver [1] ∧
      vcmp [1] (V.mk [1] "0.9" (.ver [1]) [] []).release = .eq ∧
      (V.mk [1] "0.9" (.ver [1]) [] []).upper_constraints ≠ "-" ∧
      vcmp (V.mk [1] "0.9" (.ver [1]) [] []).release
          (parseVersion (V.mk [1] "0.9" (.ver [1]) [] []).upper_constraints) =
        .gt ∧
      (ucDowngradeLabel (V.mk [1] "0.9" (.ver [1]) [] []) =
          some "needs downgrade (u-c)" ∧
        statusComment (V.mk [1] "0.9" (.ver [1]) [] []) = "ok") :=
  ⟨rfl, by decide, by decide, by decide,
    claim_C1_dead_uc_branch _ [1] rfl (by decide) (by decide) (by decide)⟩

/-- C2 counterexample: for the constraints line `foo<2.0,>=1.0` (no
exact-version operator among its specifiers) the reader still records a
constraint for `foo`, namely the version of the first specifier iterated,
contradicting the claim that no constraint is recorded for such a line. -/
theorem claim_C2_counterexample :
    lookupDict
        (read_upper_constraints
          [⟨"foo", [⟨"<", "2.0"⟩, ⟨">=", "1.0"⟩]⟩]) "foo" = some "2.0" ∧
      (some "2.0" : Option String) ≠ none :=
  ⟨rfl, by decide⟩

/-- C2 amended: the constraints reader records, for each line with a
non-empty specifier set, the version of the first specifier in iteration
order, regardless of its operator; in particular `bar===1.5` records `1.5`
and `foo<2.0,>=1.0` records the first specifier's version. -/
theorem claim_C2_first_specifier_any_op (name : String) (s : Specifier)
    (rest : List Specifier) :
    lookupDict (read_upper_constraints [⟨name, s :: rest⟩]) name =
      some s.version := by
  simp [read_upper_constraints, dictSet, lookupDict]

/-- C3: for version pairs with `a < b` under the embedded total order,
classifying a record with release `b` and packaging `a` yields
`needs upgrade`, and classifying a record with release `a` and packaging `b`
yields `needs downgrade`, provided the packaging version is neither the
`version unset` marker (it is a real `.ver`) nor the zero-version
sentinel. -/
theorem claim_C3_order_labels (a b : List Nat) (uc1 uc2 : String)
    (rv1 rv2 ob1 ob2 : List Nat)
    (hab : vcmp a b = .lt)
    (ha0 : vcmp a (parseVersion "0") ≠ .eq)
    (hb0 : vcmp b (parseVersion "0") ≠ .eq) :
    statusComment ⟨b, uc1, .ver a, rv1, ob1⟩ = "needs upgrade" ∧
      statusComment ⟨a, uc2, .ver b, rv2, ob2⟩ = "needs downgrade" := by
  constructor
  · simp only [statusComment]
    rw [if_neg ha0, if_pos hab]
  · have hba : vcmp b a = .gt := (vcmp_lt_iff_gt a b).mp hab
    simp only [statusComment]
    rw [if_neg hb0,
      if_neg (show ¬ vcmp b a = .lt by rw [hba]; decide),
      if_neg (show ¬ vcmp b a = .eq by rw [hba]; decide),
      if_pos hba]

theorem claim_C3_order_labels_witness :
    vcmp [1] [2] = .lt ∧
      vcmp [1] (parseVersion "0") ≠ .eq ∧
      vcmp [2] (parseVersion "0") ≠ .eq ∧
      (statusComment ⟨[2], "-", .ver [1], [], []⟩ = "needs upgrade" ∧
        statusComment ⟨[1], "-", .ver [2], [], []⟩ = "needs downgrade") :=
  ⟨by decide, by decide, by decide,
    claim_C3_order_labels [1] [2] "-" "-" [] [] [] []
      (by decide) (by decide) (by decide)⟩

/-- C5 counterexample: when the same package name appears on two
constraints lines, the Python dict assignment makes the *last* line win,
not the first: after `foo===1.0` and `foo===1.5` the recorded constraint
for `foo` is `1.5`, not `1.0`. -/
theorem claim_C5_counterexample :
    lookupDict
        (read_upper_constraints
          [⟨"foo", [⟨"===", "1.0"⟩]⟩, ⟨"foo", [⟨"===", "1.5"⟩]⟩]) "foo" =
      some "1.5" ∧ (some "1.5" : Option String) ≠ some "1.0" :=
  ⟨rfl, by decide⟩

theorem lookupDict_uc_foldl (lines : List UCLine) (name : String) :
    ∀ (d : List (String × String)) (acc : Option String),
      lookupDict d name = acc →
      lookupDict
          (lines.foldl
            (fun uc l =>
              match l.specifiers with
              | [] => uc
              | s :: _ => dictSet uc l.name s.version)
            d) name =
        lines.foldl
          (fun acc l =>
            if l.name = name ∧ l.specifiers ≠ [] then
              (l.specifiers.head?).map Specifier.version
            else acc)
          acc := by
  induction lines with
  | nil =>
    intro d acc h
    simpa using h
  | cons l ls ih =>
    intro d acc h
    simp only [List.foldl_cons]
    apply ih
    cases hs : l.specifiers with
    | nil => simp [hs, h]
    | cons s ss =>
      by_cases hn : l.name = name
      · simp [hs, hn, lookupDict_dictSet, h]
      · simp [hs, hn, lookupDict_dictSet, h]

/-- C5 amended: the constraint recorded for a package name is the version of
the first specifier (in iteration order, regardless of operator) of the
*last* constraints entry carrying that name with a non-empty specifier set:
within one entry the first specifier wins, but across multiple entries for
one name the last entry overwrites the earlier ones. -/
theorem claim_C5_last_entry_first_specifier (lines : List UCLine)
    (name : String) :
    lookupDict (read_upper_constraints lines) name =
      lastFirstSpecifier lines name := by
  unfold read_upper_constraints lastFirstSpecifier
  exact lookupDict_uc_foldl lines name [] none rfl

/-- C9: for every record whose packaging version is a real parsed version
(not the `version unset` marker), the classifier assigns exactly one of the
labels `unpackaged`, `needs upgrade`, `ok`, `needs downgrade`; the fallback
empty label is unreachable because the comparison yields exactly one of
`lt`, `eq`, `gt`. -/
theorem claim_C9_label_total (x : V) (v : List Nat)
    (h : x.rpm_packaging_pkg = .ver v) :
    statusComment x ∈
        (["unpackaged", "needs upgrade", "ok", "needs downgrade"] :
          List String) ∧
      statusComment x ≠ "" := by
  simp only [statusComment, h]
  by_cases h0 : vcmp v (parseVersion "0") = .eq
  · rw [if_pos h0]
    exact ⟨by simp, by simp⟩
  · rw [if_neg h0]
    cases hc : vcmp v x.release with
    | lt => simp
    | eq => simp
    | gt => simp

theorem claim_C9_label_total_witness :
    (V.mk [2] "-" (.ver [3]) [] []).rpm_packaging_pkg = .ver [3] ∧
      (statusComment (V.mk [2] "-" (.ver [3]) [] []) ∈
          (["unpackaged", "needs upgrade", "ok", "needs downgrade"] :
            List String) ∧
        statusComment (V.mk [2] "-" (.ver [3]) [] []) ≠ "") :=
  ⟨rfl, claim_C9_label_total _ [3] rfl⟩

/-- C6 counterexample: for an existing template file with no recognizable
version line, the diagnostic is emitted by a plain `print`, which writes to
standard output, not to standard error as the claim states. -/
theorem claim_C6_counterexample :
    (find_rpm_packaging_pkg_version "p" (some [⟨none, none⟩])).2 =
        some (Channel.stdout, "ERROR: no version in p found") ∧
      Channel.stdout ≠ Channel.stderr :=
  ⟨rfl, by decide⟩

/-- C6 amended: the extractor never raises: a nonexistent template path
yields the zero-version sentinel silently, and an existing file with no
recognizable version line yields the zero-version sentinel together with a
diagnostic message emitted to standard output (via `print`). -/
theorem claim_C6_total_extractor (path : String) (lines : List SpecLine)
    (h : ∀ l ∈ lines, l.upstreamMatch = none ∧ l.versionMatch = none) :
    find_rpm_packaging_pkg_version path none =
        (.ver (parseVersion "0"), none) ∧
      find_rpm_packaging_pkg_version path (some lines) =
        (.ver (parseVersion "0"),
          some (.stdout, "ERROR: no version in " ++ path ++ " found")) := by
  refine ⟨rfl, ?_⟩
  simp only [find_rpm_packaging_pkg_version]
  induction lines with
  | nil => rfl
  | cons l ls ih =>
    obtain ⟨h1, h2⟩ := h l (List.mem_cons_self _ _)
    simp only [scanSpecLines, h1, h2]
    exact ih (fun l2 hl2 => h l2 (List.mem_cons_of_mem _ hl2))

theorem claim_C6_total_extractor_witness :
    (∀ l ∈ ([⟨none, none⟩] : List SpecLine),
        l.upstreamMatch = none ∧ l.versionMatch = none) ∧
      (find_rpm_packaging_pkg_version "p2" none =
          (.ver (parseVersion "0"), none) ∧
        find_rpm_packaging_pkg_version "p2" (some [⟨none, none⟩]) =
          (.ver (parseVersion "0"),
            some (.stdout, "ERROR: no version in " ++ "p2" ++ " found"))) :=
  ⟨by decide, claim_C6_total_extractor "p2" [⟨none, none⟩] (by decide)⟩

/-- C4: when the first line of a packaging template matching either pattern
is a declared-upstream-version marker line, the extractor returns that
marker's version, whatever the rest of the file holds — in particular it
wins over every `Version:` field line appearing later, short-circuiting the
scan at that line. -/
theorem claim_C4_marker_wins (path : String) (pre : List SpecLine)
    (l : SpecLine) (rest : List SpecLine) (v : String)
    (hpre : ∀ s ∈ pre, s.upstreamMatch = none ∧ s.versionMatch = none)
    (hl : l.upstreamMatch = some v) :
    find_rpm_packaging_pkg_version path (some (pre ++ l :: rest)) =
      (.ver (parseVersion v), none) := by
  simp only [find_rpm_packaging_pkg_version]
  induction pre with
  | nil => simp [scanSpecLines, hl]
  | cons p ps ih =>
    obtain ⟨h1, h2⟩ := hpre p (List.mem_cons_self _ _)
    simp only [List.cons_append, scanSpecLines, h1, h2]
    exact ih (fun s hs => hpre s (List.mem_cons_of_mem _ hs))

theorem claim_C4_marker_wins_witness :
    (∀ s ∈ ([⟨none, none⟩] : List SpecLine),
        s.upstreamMatch = none ∧ s.versionMatch = none) ∧
      (SpecLine.mk (some "2.0") none).upstreamMatch = some "2.0" ∧
      find_rpm_packaging_pkg_version "p3"
          (some ([⟨none, none⟩] ++
            SpecLine.mk (some "2.0") none :: [⟨none, some "9.9"⟩])) =
        (.ver (parseVersion "2.0"), none) :=
  ⟨by decide, rfl,
    claim_C4_marker_wins "p3" [⟨none, none⟩] (SpecLine.mk (some "2.0") none)
      [⟨none, some "9.9"⟩] "2.0" (by decide) rfl⟩

/-- C7 counterexample: a template whose first (and only) `Version:` field
line carries the placeholder `\x7b\x7b py2rpmversion() \x7d\x7d` but whose
earlier line matches the declared-upstream-version marker pattern makes the
extractor return that marker's parsed version, not the `version unset`
marker, refuting the claim as stated. -/
theorem claim_C7_counterexample :
    (find_rpm_packaging_pkg_version "p4"
          (some [⟨some "1.0", none⟩,
            ⟨none, some "\x7b\x7b py2rpmversion() \x7d\x7d"⟩])).1 =
        PkgVersion.ver [1, 0] ∧
      PkgVersion.ver [1, 0] ≠ PkgVersion.unset :=
  ⟨rfl, by decide⟩

/-- C7 amended: when the first line of the template matching either pattern
is a `Version:` field line whose value is the placeholder
`\x7b\x7b py2rpmversion() \x7d\x7d` (so no declared-upstream-version marker
line precedes it), the extractor returns the `version unset` marker, and
every record whose packaging version is that marker is classified `ok`
regardless of its release and constraint versions. -/
theorem claim_C7_placeholder_unset (path : String) (pre : List SpecLine)
    (l : SpecLine) (rest : List SpecLine) (x : V)
    (hpreU : ∀ s ∈ pre, s.upstreamMatch = none)
    (hpreV : ∀ s ∈ pre, s.versionMatch = none)
    (hlU : l.upstreamMatch = none)
    (hlV : l.versionMatch = some "\x7b\x7b py2rpmversion() \x7d\x7d")
    (hx : x.rpm_packaging_pkg = .unset) :
    find_rpm_packaging_pkg_version path (some (pre ++ l :: rest)) =
        (.unset, none) ∧
      statusComment x = "ok" := by
  refine ⟨?_, by simp [statusComment, hx]⟩
  simp only [find_rpm_packaging_pkg_version]
  induction pre with
  | nil => simp [scanSpecLines, hlU, hlV]
  | cons p ps ih =>
    simp only [List.cons_append, scanSpecLines,
      hpreU p (List.mem_cons_self _ _), hpreV p (List.mem_cons_self _ _)]
    exact ih (fun s hs => hpreU s (List.mem_cons_of_mem _ hs))
      (fun s hs => hpreV s (List.mem_cons_of_mem _ hs))

theorem claim_C7_placeholder_unset_witness :
    (∀ s ∈ ([⟨none, none⟩] : List SpecLine), s.upstreamMatch = none) ∧
      (∀ s ∈ ([⟨none, none⟩] : List SpecLine), s.versionMatch = none) ∧
      (SpecLine.mk none
          (some "\x7b\x7b py2rpmversion() \x7d\x7d")).upstreamMatch = none ∧
      (SpecLine.mk none
          (some "\x7b\x7b py2rpmversion() \x7d\x7d")).versionMatch =
        some "\x7b\x7b py2rpmversion() \x7d\x7d" ∧
      (V.mk [1] "-" .unset [] []).rpm_packaging_pkg = .unset ∧
      (find_rpm_packaging_pkg_version "p5"
          (some ([⟨none, none⟩] ++
            SpecLine.mk none
              (some "\x7b\x7b py2rpmversion() \x7d\x7d") :: [])) =
          (.unset, none) ∧
        statusComment (V.mk [1] "-" .unset [] []) = "ok") :=
  ⟨by decide, by decide, rfl, rfl, rfl,
    claim_C7_placeholder_unset "p5" [⟨none, none⟩]
      (SpecLine.mk none (some "\x7b\x7b py2rpmversion() \x7d\x7d")) []
      (V.mk [1] "-" .unset [] []) (by decide) (by decide) rfl rfl rfl⟩

theorem pymax_foldl_spec (xs : List ReleaseEntry) : ∀ (b r : ReleaseEntry),
    xs.foldl
        (fun best y =>
          if vcmp (parseVersion y.version) (parseVersion best.version) = .gt
          then y else best)
        b = r →
    (r = b ∨ r ∈ xs) ∧
      vcmp (parseVersion b.version) (parseVersion r.version) ≠ .gt ∧
      ∀ y ∈ xs,
        vcmp (parseVersion y.version) (parseVersion r.version) ≠ .gt := by
  induction xs with
  | nil =>
    intro b r h
    rw [List.foldl_nil] at h
    subst h
    refine ⟨Or.inl rfl, ?_, ?_⟩
    · rw [vcmp_self]
      decide
    · intro y hy
      exact absurd hy (List.not_mem_nil y)
  | cons x xs ih =>
    intro b r h
    rw [List.foldl_cons] at h
    by_cases hc : vcmp (parseVersion x.version) (parseVersion b.version) = .gt
    · rw [if_pos hc] at h
      obtain ⟨hmem, hge, hall⟩ := ih x r h
      refine ⟨?_, ?_, ?_⟩
      · rcases hmem with h2 | h2
        · right
          rw [h2]
          exact List.mem_cons_self x xs
        · exact Or.inr (List.mem_cons_of_mem x h2)
      · have hbx : vcmp (parseVersion b.version) (parseVersion x.version)
            ≠ .gt := by
          intro hg
          have hxx := vcmp_gt_trans hc hg
          rw [vcmp_self] at hxx
          exact Ordering.noConfusion hxx
        exact vcmp_notGt_trans hbx hge
      · intro y hy
        rcases List.mem_cons.mp hy with hy1 | hy2
        · subst hy1
          exact hge
        · exact hall y hy2
    · rw [if_neg hc] at h
      obtain ⟨hmem, hge, hall⟩ := ih b r h
      refine ⟨?_, hge, ?_⟩
      · rcases hmem with h2 | h2
        · exact Or.inl h2
        · exact Or.inr (List.mem_cons_of_mem x h2)
      · intro y hy
        rcases List.mem_cons.mp hy with hy1 | hy2
        · subst hy1
          exact vcmp_notGt_trans hc hge
        · exact hall y hy2

/-- C8: for every non-empty list of release entries,
`find_highest_release_version` returns an entry of the list whose parsed
version is greater than or equal to (compares not-less-than, i.e. no other
entry compares strictly greater) the parsed version of every entry; any of
several tied maximal entries may be returned. -/
theorem claim_C8_highest_release (releases : List ReleaseEntry)
    (h : releases ≠ []) :
    ∃ r, find_highest_release_version releases = some r ∧ r ∈ releases ∧
      ∀ y ∈ releases,
        vcmp (parseVersion y.version) (parseVersion r.version) ≠ .gt := by
  cases releases with
  | nil => exact absurd rfl h
  | cons x xs =>
    obtain ⟨hmem, hge, hall⟩ :=
      pymax_foldl_spec xs x
        (xs.foldl
          (fun best y =>
            if vcmp (parseVersion y.version) (parseVersion best.version) = .gt
            then y else best)
          x) rfl
    refine ⟨_, rfl, ?_, ?_⟩
    · rcases hmem with h2 | h2
      · rw [h2]
        exact List.mem_cons_self x xs
      · exact List.mem_cons_of_mem x h2
    · intro y hy
      rcases List.mem_cons.mp hy with hy1 | hy2
      · subst hy1
        exact hge
      · exact hall y hy2

theorem claim_C8_highest_release_witness :
    ([⟨"1.0", []⟩, ⟨"2.0", []⟩, ⟨"1.5", []⟩] : List ReleaseEntry) ≠ [] ∧
      ∃ r, find_highest_release_version
            [⟨"1.0", []⟩, ⟨"2.0", []⟩, ⟨"1.5", []⟩] = some r ∧
          r ∈ ([⟨"1.0", []⟩, ⟨"2.0", []⟩, ⟨"1.5", []⟩] : List ReleaseEntry) ∧
          ∀ y ∈ ([⟨"1.0", []⟩, ⟨"2.0", []⟩, ⟨"1.5", []⟩] :
              List ReleaseEntry),
            vcmp (parseVersion y.version) (parseVersion r.version) ≠ .gt :=
  ⟨by decide, claim_C8_highest_release _ (by decide)⟩

theorem buildStep_cases (env : Env) (inc : List String)
    (d : List (String × V)) (yf : YamlFile) :
    (buildStep env inc (some d) yf = some d ∧
        ((inc ≠ [] ∧ yf.project_name ∉ inc) ∨ yf.releases = none)) ∨
      (∃ r, buildStep env inc (some d) yf =
          some (dictSet d yf.project_name r) ∧
        ¬(inc ≠ [] ∧ yf.project_name ∉ inc) ∧ yf.releases ≠ none) ∨
      buildStep env inc (some d) yf = none := by
  obtain ⟨pn, rel⟩ := yf
  by_cases hskip : inc ≠ [] ∧ pn ∉ inc
  · refine Or.inl ⟨?_, Or.inl hskip⟩
    simp only [buildStep]
    rw [if_pos hskip]
  · cases rel with
    | none =>
      refine Or.inl ⟨?_, Or.inr rfl⟩
      simp only [buildStep]
      rw [if_neg hskip]
    | some rels =>
      cases hmax : find_highest_release_version rels with
      | none =>
        refine Or.inr (Or.inr ?_)
        simp only [buildStep]
        rw [if_neg hskip]
        simp [hmax]
      | some vr =>
        cases hhead : vr.projects.head? with
        | none =>
          refine Or.inr (Or.inr ?_)
          simp only [buildStep]
          rw [if_neg hskip]
          simp [hmax, hhead]
        | some p0 =>
          refine Or.inr (Or.inl
            ⟨⟨parseVersion vr.version,
              (lookupDict env.upper_constraints pn).getD "-",
              (find_rpm_packaging_pkg_version
                  ("openstack/" ++ p0.tarball_base.getD pn ++ "/" ++
                    p0.tarball_base.getD pn ++ ".spec.j2")
                  (env.spec_lines
                    ("openstack/" ++ p0.tarball_base.getD pn ++ "/" ++
                      p0.tarball_base.getD pn ++ ".spec.j2"))).1,
              (lookupDict env.open_reviews pn).getD [],
              env.obs pn⟩, ?_, hskip,
              fun hcon => Option.noConfusion hcon⟩)
          simp only [buildStep]
          rw [if_neg hskip]
          simp [hmax, hhead]

theorem foldl_buildStep_none (env : Env) (inc : List String) :
    ∀ files : List YamlFile, files.foldl (buildStep env inc) none = none := by
  intro files
  induction files with
  | nil => rfl
  | cons f fs ih =>
    rw [List.foldl_cons]
    exact ih

theorem buildProjects_keys (env : Env) (inc : List String) :
    ∀ (files : List YamlFile) (d ps : List (String × V)),
      files.foldl (buildStep env inc) (some d) = some ps →
      ((d.map Prod.fst).Nodup → (ps.map Prod.fst).Nodup) ∧
        ∀ name, name ∈ ps.map Prod.fst ↔
          (name ∈ d.map Prod.fst ∨
            ((inc = [] ∨ name ∈ inc) ∧
              ∃ yf ∈ files, yf.project_name = name ∧ yf.releases ≠ none)) := by
  intro files
  induction files with
  | nil =>
    intro d ps h
    rw [List.foldl_nil] at h
    injection h with h
    subst h
    refine ⟨id, fun name => ?_⟩
    simp
  | cons yf fs ih =>
    intro d ps h
    rw [List.foldl_cons] at h
    rcases buildStep_cases env inc d yf with
      ⟨hstep, hwhy⟩ | ⟨r, hstep, hpass, hrel⟩ | hstep
    · rw [hstep] at h
      obtain ⟨hnd, hmem⟩ := ih d ps h
      refine ⟨hnd, fun name => ?_⟩
      rw [hmem name]
      constructor
      · rintro (h1 | ⟨h1, yf2, h2, h3, h4⟩)
        · exact Or.inl h1
        · exact Or.inr ⟨h1, yf2, List.mem_cons_of_mem _ h2, h3, h4⟩
      · rintro (h1 | ⟨h1, yf2, h2, h3, h4⟩)
        · exact Or.inl h1
        · rcases List.mem_cons.mp h2 with h5 | h5
          · subst h5
            rcases hwhy with hskip | hnorel
            · rcases h1 with he | hin
              · exact absurd he hskip.1
              · rw [← h3] at hin
                exact absurd hin hskip.2
            · exact absurd hnorel h4
          · exact Or.inr ⟨h1, yf2, h5, h3, h4⟩
    · rw [hstep] at h
      obtain ⟨hnd, hmem⟩ := ih _ ps h
      refine ⟨fun hd => hnd (nodup_keys_dictSet d yf.project_name r hd),
        fun name => ?_⟩
      rw [hmem name]
      constructor
      · rintro (h1 | ⟨h1, yf2, h2, h3, h4⟩)
        · rcases (mem_keys_dictSet d yf.project_name name r).mp h1 with
            h5 | h5
          · right
            refine ⟨?_, yf, List.mem_cons_self _ _, h5.symm, hrel⟩
            push_neg at hpass
            by_cases he : inc = []
            · exact Or.inl he
            · refine Or.inr ?_
              rw [h5]
              exact hpass he
          · exact Or.inl h5
        · exact Or.inr ⟨h1, yf2, List.mem_cons_of_mem _ h2, h3, h4⟩
      · rintro (h1 | ⟨h1, yf2, h2, h3, h4⟩)
        · exact Or.inl ((mem_keys_dictSet d yf.project_name name r).mpr
            (Or.inr h1))
        · rcases List.mem_cons.mp h2 with h5 | h5
          · rw [h5] at h3
            exact Or.inl ((mem_keys_dictSet d yf.project_name name r).mpr
              (Or.inl h3.symm))
          · exact Or.inr ⟨h1, yf2, h5, h3, h4⟩
    · rw [hstep, foldl_buildStep_none] at h
      exact Option.noConfusion h

/-- C10: when the record-building loop of `main` completes (no uncaught
exception), the resulting `projects` dict holds exactly one record per
distinct project name considered: its keys are pairwise distinct, and a name
has a record iff it passes the optional include-list filter and some
deliverable file carries it with a `releases` key.  Records are namedtuple
values constructed once per name; the pure embedding identifies the stored
record with its construction. -/
theorem claim_C10_unique_records (env : Env) (inc : List String)
    (files : List YamlFile) (ps : List (String × V))
    (h : buildProjects env inc files = some ps) :
    (ps.map Prod.fst).Nodup ∧
      ∀ name, name ∈ ps.map Prod.fst ↔
        ((inc = [] ∨ name ∈ inc) ∧
          ∃ yf ∈ files, yf.project_name = name ∧ yf.releases ≠ none) := by
  obtain ⟨hnd, hmem⟩ := buildProjects_keys env inc files [] ps h
  refine ⟨hnd (by simp), fun name => ?_⟩
  rw [hmem name]
  simp

theorem claim_C10_unique_records_witness :
    buildProjects ⟨[], fun _ => none, [], fun _ => []⟩ []
        [⟨"demo", some [⟨"1.0", [⟨none⟩]⟩]⟩] =
      some [("demo", ⟨[1, 0], "-", .ver [0], [], []⟩)] ∧
      (([("demo", (⟨[1, 0], "-", .ver [0], [], []⟩ : V))].map
          Prod.fst).Nodup ∧
        ∀ name,
          name ∈ [("demo", (⟨[1, 0], "-", .ver [0], [], []⟩ : V))].map
            Prod.fst ↔
          (([] : List String) = [] ∨ name ∈ ([] : List String)) ∧
            ∃ yf ∈ [(⟨"demo", some [⟨"1.0", [⟨none⟩]⟩]⟩ : YamlFile)],
              yf.project_name = name ∧ yf.releases ≠ none) :=
  ⟨rfl, claim_C10_unique_records ⟨[], fun _ => none, [], fun _ => []⟩ []
    [⟨"demo", some [⟨"1.0", [⟨none⟩]⟩]⟩]
    [("demo", ⟨[1, 0], "-", .ver [0], [], []⟩)] rfl⟩
